import Mathlib

/-!
Verification of the ARCANEE traceability and consistency checking scripts.

This file gives a shallow embedding, in Lean, of the identifier-extraction
and rule-checking logic of the repository:

- src/tools/ci/check_req_has_test_and_checklist.py  (parse_ids, main)
- src/_blueprint/tools/compose_validate.py          (get_all_ids_from_text,
  validate_traceability and its checklist range handling)
- src/tools/ci/check_no_na_without_dec.py           (the N/A governance rule)
- src/_blueprint/tools/fix_headers.py and check_headers.py (header rule)

Python strings are modelled as List Char.  The Python regular expressions
used by the scripts are small and concrete, so each is embedded as an
explicit character-level scanner with the same leftmost, non-overlapping,
greedy matching behaviour as re.finditer, re.search and re.match on the
patterns in question.  Python sets are modelled as Finset, set iteration
order (which is hash-based and unspecified in Python) is modelled as an
explicit list parameter where a script iterates over a set.
-/

set_option maxRecDepth 4000

/-! ### Character helpers -/

/-- Numeric value of a decimal digit character, as computed by Python int()
one digit at a time. -/
def digitVal (c : Char) : ℕ := c.toNat - 48

/-- Value of a digit string, as computed by Python int() on a match group. -/
def digitsVal (ds : List Char) : ℕ := ds.foldl (fun a c => 10 * a + digitVal c) 0

/-! ### Embedding of parse_ids from src/tools/ci/check_req_has_test_and_checklist.py

The script uses two regular expressions over the whole text:
single identifiers.  r-string: backslash-bracket optional, REQ dash digits,
optional closing bracket; and ranges: the same with dot dot digits.
Both are applied with re.finditer and the integer groups are added to one
Python set of ordinals. -/

/-- Greedy match of one or more digits at the head of the input, returning
the int() value of the digit group and the rest of the input.  Mirrors a
digit-plus regex group. -/
def matchDigits (l : List Char) : Option (ℕ × List Char) :=
  let ds := l.takeWhile Char.isDigit
  if ds.isEmpty then none
  else some (digitsVal ds, l.dropWhile Char.isDigit)

/-- The bracketed opener of the REQ identifier pattern. -/
def openReq : List Char := ['[', 'R', 'E', 'Q', '-']

/-- The bare opener of the REQ identifier pattern. -/
def bareReq : List Char := ['R', 'E', 'Q', '-']

/-- After the literal REQ dash: one or more digits, then an optional closing
bracket which is consumed when present. -/
def afterNum (l : List Char) : Option (ℕ × List Char) :=
  match matchDigits l with
  | none => none
  | some (n, r) => if r.head? = some ']' then some (n, r.tail) else some (n, r)

/-- Try to match the single-identifier pattern at the current position:
optional opening bracket, literal REQ dash, digits, optional closing
bracket.  Returns the ordinal and the remaining input on success. -/
def tryMatchSingle (l : List Char) : Option (ℕ × List Char) :=
  if openReq.isPrefixOf l then afterNum (l.drop 5)
  else if bareReq.isPrefixOf l then afterNum (l.drop 4)
  else none

/-- After the literal REQ dash in the range pattern: digits, two literal
dots, digits, optional closing bracket. -/
def matchRangeTail (l : List Char) : Option (ℕ × ℕ × List Char) :=
  match matchDigits l with
  | some (a, '.' :: '.' :: rest) =>
    match matchDigits rest with
    | some (b, r) => if r.head? = some ']' then some (a, b, r.tail) else some (a, b, r)
    | none => none
  | _ => none

/-- Try to match the range pattern at the current position: optional opening
bracket, literal REQ dash, digits, dot dot, digits, optional closing
bracket. -/
def tryMatchRange (l : List Char) : Option (ℕ × ℕ × List Char) :=
  if openReq.isPrefixOf l then matchRangeTail (l.drop 5)
  else if bareReq.isPrefixOf l then matchRangeTail (l.drop 4)
  else none

/-- Leftmost non-overlapping scan for the single-identifier pattern, in the
manner of re.finditer: try to match at each position, and on success resume
after the matched text.  The fuel argument bounds the recursion and is
instantiated with the length of the input. -/
def scanSinglesAux : ℕ → List Char → List ℕ
  | 0, _ => []
  | _ + 1, [] => []
  | fuel + 1, c :: rest =>
    match tryMatchSingle (c :: rest) with
    | some (n, r) => n :: scanSinglesAux fuel r
    | none => scanSinglesAux fuel rest

/-- All ordinals matched by the single-identifier pattern, in match order. -/
def scanSingles (l : List Char) : List ℕ := scanSinglesAux l.length l

/-- Leftmost non-overlapping scan for the range pattern. -/
def scanRangesAux : ℕ → List Char → List (ℕ × ℕ)
  | 0, _ => []
  | _ + 1, [] => []
  | fuel + 1, c :: rest =>
    match tryMatchRange (c :: rest) with
    | some (a, b, r) => (a, b) :: scanRangesAux fuel r
    | none => scanRangesAux fuel rest

/-- All range bounds matched by the range pattern, in match order. -/
def scanRanges (l : List Char) : List (ℕ × ℕ) := scanRangesAux l.length l

/-- Expansion of a matched range: the Python loop for i in
range(start, end + 1) adding each i.  Empty when the bounds are reversed. -/
def expandRange (s e : ℕ) : List ℕ := List.range' s (e + 1 - s)

/-- Embedding of parse_ids: the set of ordinals contributed by the single
matches together with the expansion of every matched range.  The function
is total and returns a plain set of naturals; the script has no error
reporting for malformed or reversed ranges. -/
def parse_ids (text : List Char) : Finset ℕ :=
  (scanSingles text).toFinset ∪
    (scanRanges text).foldr (fun p acc => (expandRange p.1 p.2).toFinset ∪ acc) ∅

/-! ### Embedding of main from check_req_has_test_and_checklist.py -/

/-- The set of REQ ordinals harvested from the given blueprint markdown
texts, mirroring the loop that parses every blueprint markdown file.  The
checklist is a YAML file and is not part of this scan universe. -/
def definedReqs (texts : List String) : Finset ℕ :=
  texts.foldr (fun t acc => parse_ids t.toList ∪ acc) ∅

/-- The set difference computed at step three of main: defined minus
covered requirement ordinals. -/
def reqMissingSet (defined covered : Finset ℕ) : Finset ℕ := defined \ covered

/-- Outcome of a run of the check_req_has_test_and_checklist script. -/
inductive ReqResult where
  | noReqs : ReqResult
  | fatalNoChecklist : ReqResult
  | missingReqs : List ℕ → ReqResult
  | success : ℕ → ReqResult
deriving DecidableEq

/-- Embedding of main: harvest defined REQ ordinals from the markdown texts;
exit successfully when none were found; otherwise require the checklist file
(modelled as an Option) and fail fatally when it is absent; otherwise report
the sorted list of defined ordinals that the checklist does not cover. -/
def checkReqMain (texts : List String) (checklist : Option String) : ReqResult :=
  let defined := definedReqs texts
  if defined = ∅ then .noReqs
  else
    match checklist with
    | none => .fatalNoChecklist
    | some cl =>
      let covered := parse_ids cl.toList
      let missing := reqMissingSet defined covered
      if missing = ∅ then .success defined.card
      else .missingReqs (missing.sort (· ≤ ·))

/-- Process exit status of the script for each outcome. -/
def reqExitCode : ReqResult → ℕ
  | .noReqs => 0
  | .fatalNoChecklist => 1
  | .missingReqs _ => 1
  | .success _ => 0

/-- The under-coverage violations reported by a run: empty except in the
missingReqs outcome. -/
def mainViolations : ReqResult → List ℕ
  | .missingReqs l => l
  | _ => []

/-! ### Embedding of src/_blueprint/tools/compose_validate.py

Identifiers here are strings of the form KIND-NUMBER; the script stores the
matched text itself in its sets, so the padded and unpadded renderings of
one ordinal are distinct set elements. -/

/-- Python word characters for the word-boundary assertions of the pattern:
letters, digits and underscore. -/
def isWordChar (c : Char) : Bool := c.isAlphanum || c = '_'

/-- ASCII uppercase test for the KIND part of the pattern. -/
def isUpperAZ (c : Char) : Bool := decide ('A' ≤ c) && decide (c ≤ 'Z')

/-- Try to match the word-bounded identifier pattern (uppercase letters,
dash, digits, word boundary at both ends) at the current position, which the
caller guarantees sits at a word boundary.  Returns the matched text and the
remaining input. -/
def tryMatchId (l : List Char) : Option (List Char × List Char) :=
  let ks := l.takeWhile isUpperAZ
  if ks.isEmpty then none
  else
    match l.drop ks.length with
    | '-' :: rest =>
      let ds := rest.takeWhile Char.isDigit
      if ds.isEmpty then none
      else
        match rest.drop ds.length with
        | [] => some (ks ++ '-' :: ds, [])
        | c :: r => if isWordChar c then none else some (ks ++ '-' :: ds, c :: r)
    | _ => none

/-- Scan for all word-bounded identifiers in the manner of re.findall.  The
boolean tracks whether the previous character was a word character, which
decides the word-boundary assertion at the start of a candidate match. -/
def scanIdsAux : ℕ → Bool → List Char → List (List Char)
  | 0, _, _ => []
  | _ + 1, _, [] => []
  | fuel + 1, prevWord, c :: rest =>
    if prevWord then scanIdsAux fuel (isWordChar c) rest
    else
      match tryMatchId (c :: rest) with
      | some (tok, r) => tok :: scanIdsAux fuel true r
      | none => scanIdsAux fuel (isWordChar c) rest

/-- Embedding of get_all_ids_from_text: the set of matched identifier
strings of the word-bounded KIND-NUMBER pattern. -/
def get_all_ids_from_text (text : String) : Finset String :=
  ((scanIdsAux text.toList.length false text.toList).map (fun l => String.mk l)).toFinset

/-- The requirement identifier strings harvested from the chapter texts:
every id found by get_all_ids_from_text whose text starts with REQ dash. -/
def harvestReqs (texts : List String) : Finset String :=
  (texts.foldr (fun t acc => get_all_ids_from_text t ∪ acc) ∅).filter
    (fun s => (bareReq.isPrefixOf s.toList))

/-- Zero-padded rendering of an ordinal to width two, as the Python format
specifier 02d produces. -/
def pad2 (n : ℕ) : List Char :=
  if n < 10 then '0' :: (toString n).toList else (toString n).toList

/-- Embedding of re.match of the checklist range pattern (uppercase kind,
dash, digits, dot dot, digits) against the start of one reference token.
Trailing text after the second bound is ignored, as re.match does not
anchor the end. -/
def matchRefRange (l : List Char) : Option (List Char × ℕ × ℕ) :=
  let ks := l.takeWhile isUpperAZ
  if ks.isEmpty then none
  else
    match l.drop ks.length with
    | '-' :: rest =>
      match matchDigits rest with
      | some (a, '.' :: '.' :: rest₂) =>
        match matchDigits rest₂ with
        | some (b, _) => some (ks, a, b)
        | none => none
      | _ => none
    | _ => none

/-- The coverage strings contributed by one checklist reference token: a
range token contributes both the unpadded and the two-padded rendering of
every ordinal in its expansion, and any other token contributes itself
literally. -/
def refTokens (r : String) : Finset String :=
  match matchRefRange r.toList with
  | some (ks, a, b) =>
    ((expandRange a b).map (fun i => String.mk (ks ++ '-' :: (toString i).toList))).toFinset ∪
      ((expandRange a b).map (fun i => String.mk (ks ++ '-' :: pad2 i))).toFinset
  | none => {r}

/-- The checklist coverage set built from a flat list of reference tokens. -/
def checklistRefs (refs : List String) : Finset String :=
  refs.foldr (fun r acc => refTokens r ∪ acc) ∅

/-- A checklist record tree: milestones, each a list of steps, each a list
of reference tokens. -/
def flattenChecklist (cl : List (List (List String))) : List String :=
  (cl.map List.flatten).flatten

/-- Coverage set of an optional checklist file.  When the file is absent the
script skips the whole scan, so the coverage set is silently empty. -/
def composeCrefs (checklist : Option (List (List (List String)))) : Finset String :=
  match checklist with
  | none => ∅
  | some cl => checklistRefs (flattenChecklist cl)

/-- The missing-requirement list in the given iteration order of the set of
harvested requirement ids.  Python iterates its set in hash order, which is
unspecified; the order is therefore an explicit parameter here. -/
def composeMissing (reqIter : List String) (crefs : Finset String) : List String :=
  reqIter.filter (fun r => decide (r ∉ crefs))

/-- Embedding of validate_traceability given the harvested requirement ids
in set iteration order and the optional checklist record tree: returns the
pass flag and the missing-requirement list, in iteration order.  An absent
checklist is not fatal: the function proceeds against the empty coverage
set. -/
def validate_traceability (reqIter : List String)
    (checklist : Option (List (List (List String)))) : Bool × List String :=
  let missing := composeMissing reqIter (composeCrefs checklist)
  (missing.isEmpty, missing)

/-- The lines printed by validate_traceability about traceability, in
default mode (no trace flag): the count line, then the first five missing
ids in iteration order, then the truncation hint. -/
def composePrintLines (missing : List String) : List String :=
  if missing.isEmpty then ["Traceability: OK"]
  else
    ("FAIL: The following REQs are missing from implementation_checklist.yaml: "
        ++ toString missing.length) ::
      ((missing.take 5).map (fun r => "  - " ++ r) ++
        ["  (Run with --trace for full analysis)"])

/-- Embedding of the sorted missing-requirement output of the other checker,
check_req_has_test_and_checklist.py: the script prints REQ dash ordinal for
the sorted set difference, so the printed list is the ascending sort of any
iteration order of the missing set. -/
def checkReqPrintList (missingIter : List ℕ) : List String :=
  (missingIter.insertionSort (· ≤ ·)).map (fun x => "REQ-" ++ toString x)

/-! ### Embedding of src/tools/ci/check_no_na_without_dec.py

The script walks every line of every scanned markdown file; a line is
flagged when it contains the literal N/A, does not contain the
self-referential exemption token or the inline-code form of N/A, and has no
bracketed DEC-number token. -/

/-- Substring test, as the Python in operator on strings: the needle occurs
as a contiguous run somewhere in the haystack. -/
def hasSubList (needle : List Char) : List Char → Bool
  | [] => needle.isPrefixOf []
  | c :: rest => needle.isPrefixOf (c :: rest) || hasSubList needle rest

/-- Test for the bracketed DEC token pattern (open bracket, DEC dash, one or
more digits, close bracket) at the current position. -/
def decTokAt (l : List Char) : Bool :=
  match l with
  | '[' :: 'D' :: 'E' :: 'C' :: '-' :: rest =>
    let ds := rest.takeWhile Char.isDigit
    !ds.isEmpty &&
      (match rest.dropWhile Char.isDigit with
       | ']' :: _ => true
       | _ => false)
  | _ => false

/-- Embedding of re.search for the bracketed DEC token pattern: true when
the pattern matches at some position of the line. -/
def hasDecTok : List Char → Bool
  | [] => false
  | c :: rest => decTokAt (c :: rest) || hasDecTok rest

/-- The per-line condition of the unjustified placeholder rule, read off the
branch structure of the loop body: the line contains N/A, is not exempted by
the self-documentation token or the inline-code form, and lacks a DEC
justification token. -/
def naFlagged (line : String) : Bool :=
  hasSubList ("N/A".toList) line.toList &&
    !(hasSubList ("[TEST-02]".toList) line.toList ||
      hasSubList ("`N/A`".toList) line.toList) &&
    !hasDecTok line.toList

/-- The enumerate loop of the script over the lines of one file, carrying
the zero-based index and emitting one violation (reported line number and
line text) per flagged line. -/
def checkNoNAAux : ℕ → List String → List (ℕ × String)
  | _, [] => []
  | idx, line :: rest =>
    if naFlagged line then (idx + 1, line) :: checkNoNAAux (idx + 1) rest
    else checkNoNAAux (idx + 1) rest

/-- All violations of the unjustified placeholder rule for one file, in
line order, with one-based reported line numbers. -/
def checkNoNA (lines : List String) : List (ℕ × String) := checkNoNAAux 0 lines

/-! ### Embedding of src/_blueprint/tools/fix_headers.py and check_headers.py -/

/-- Python str.strip() whitespace test for the characters stripped from a
line before the header comparison. -/
def isPySpace (c : Char) : Bool :=
  c = ' ' || c = '\t' || c = '\n' || c = '\r' || c = '\x0b' || c = '\x0c'

/-- Python str.strip(): drop whitespace from both ends. -/
def pyStrip (l : List Char) : List Char :=
  ((l.dropWhile isPySpace).reverse.dropWhile isPySpace).reverse

/-- The canonical header line for a corpus-relative path. -/
def expectedHeader (p : List Char) : List Char :=
  ("<!-- ".toList) ++ p ++ (" -->".toList)

/-- The line boundary characters of Python str.splitlines: newline,
carriage return, vertical tab, form feed, the file, group and record
separators, next line, line separator and paragraph separator.  The
readline call of the header checker, in contrast, stops only at a
newline. -/
def isLineBoundary (c : Char) : Bool :=
  c = '\n' || c = '\r' || c = '\x0b' || c = '\x0c' || c = '\x1c' ||
    c = '\x1d' || c = '\x1e' || c = '\x85' || c = '\u2028' || c = '\u2029'

/-- Python str.splitlines: the chunks of the content between line boundary
characters, without a trailing empty chunk after a final boundary.  Every
boundary character separates on its own here; the carriage return newline
pair, which str.splitlines treats as one boundary, cannot occur because
both scripts read the file in text mode with universal newline translation,
so the decoded text the scripts operate on never contains a carriage
return. -/
def splitlinesAux : List Char → List Char → List (List Char)
  | cur, [] => if cur.isEmpty then [] else [cur.reverse]
  | cur, c :: rest =>
    if isLineBoundary c then cur.reverse :: splitlinesAux [] rest
    else splitlinesAux (c :: cur) rest

/-- Python str.splitlines of a whole content blob. -/
def splitlines (content : List Char) : List (List Char) := splitlinesAux [] content

/-- The backslash-n join used when the fixed file is written back. -/
def joinLines : List (List Char) → List Char
  | [] => []
  | [l] => l
  | l :: ls => l ++ '\n' :: joinLines ls

/-- Test used by fix_headers to decide whether a wrong first line is an old
header to replace: the stripped line starts with an html comment opener. -/
def startsComment (l : List Char) : Bool := ("<!--".toList).isPrefixOf l

/-- Companion test: the stripped line ends with the html comment closer. -/
def endsComment (l : List Char) : Bool := ("-->".toList).isSuffixOf l

/-- Embedding of the per-file body of fix_headers: given the corpus-relative
path and the current content, produce the content of the file after the
script runs on it.  An empty file receives just the header; a file whose
stripped first line is already the expected header is left untouched; a
wrong first line that looks like an html comment is replaced; otherwise the
header is prepended, with a blank line inserted after it when the old first
line is not blank. -/
def fixContent (p : List Char) (content : List Char) : List Char :=
  let expected := expectedHeader p
  match splitlines content with
  | [] => expected ++ ['\n']
  | first :: rest =>
    if pyStrip first = expected then content
    else if startsComment (pyStrip first) && endsComment (pyStrip first) then
      joinLines (expected :: rest) ++ ['\n']
    else
      joinLines
        (if (pyStrip first).isEmpty then expected :: first :: rest
         else expected :: [] :: first :: rest) ++ ['\n']

/-- Embedding of the per-file body of check_headers: read the first line of
the file, strip it, and compare with the expected header for the path. -/
def checkHeader (p : List Char) (content : List Char) : Bool :=
  pyStrip (content.takeWhile (fun c => c != '\n')) == expectedHeader p

/-! ### Textual renderings of identifiers and ranges

These build the concrete texts whose extraction the properties below are
about: the bare rendering REQ dash digits, and the bare range rendering
REQ dash digits dot dot digits. -/

/-- The rendering of a bare REQ identifier with the given digit group. -/
def reqStr (ds : List Char) : List Char := bareReq ++ ds

/-- The rendering of a bare REQ range with the given digit groups. -/
def reqRangeStr (ds₁ ds₂ : List Char) : List Char :=
  bareReq ++ (ds₁ ++ ('.' :: '.' :: ds₂))

/-! ### Lemmas about digit groups and the single and range scanners -/

lemma digitsVal_pad (ds : List Char) : digitsVal ('0' :: ds) = digitsVal ds := by
  rw [digitsVal, digitsVal, List.foldl_cons]
  have h : 10 * 0 + digitVal '0' = 0 := by decide
  rw [h]

lemma isDigit_ne_R {c : Char} (h : c.isDigit) : c ≠ 'R' := by
  intro he
  rw [he] at h
  exact absurd h (by decide)

lemma takeWhile_digits_append (ds rest : List Char) (h : ∀ c ∈ ds, c.isDigit)
    (hstop : ∀ c, rest.head? = some c → c.isDigit = false) :
    (ds ++ rest).takeWhile Char.isDigit = ds ∧
      (ds ++ rest).dropWhile Char.isDigit = rest := by
  induction ds with
  | nil =>
    simp only [List.nil_append]
    cases rest with
    | nil => simp
    | cons c r =>
      have hc := hstop c rfl
      simp [List.takeWhile_cons, List.dropWhile_cons, hc]
  | cons d ds ih =>
    have hd : d.isDigit := h d (by simp)
    have ih2 := ih (fun c hc => h c (by simp [hc]))
    simp [List.takeWhile_cons, List.dropWhile_cons, hd, ih2.1, ih2.2]

lemma matchDigits_spec (ds rest : List Char) (hne : ds ≠ [])
    (h : ∀ c ∈ ds, c.isDigit)
    (hstop : ∀ c, rest.head? = some c → c.isDigit = false) :
    matchDigits (ds ++ rest) = some (digitsVal ds, rest) := by
  obtain ⟨ht, hd⟩ := takeWhile_digits_append ds rest h hstop
  rw [matchDigits]
  simp only [ht, hd]
  rw [if_neg (by simpa using hne)]

lemma afterNum_spec (ds rest : List Char) (hne : ds ≠ [])
    (h : ∀ c ∈ ds, c.isDigit)
    (hstop : ∀ c, rest.head? = some c → c.isDigit = false ∧ c ≠ ']') :
    afterNum (ds ++ rest) = some (digitsVal ds, rest) := by
  rw [afterNum, matchDigits_spec ds rest hne h (fun c hc => (hstop c hc).1)]
  have : ¬ (rest.head? = some ']') := by
    intro hh
    exact (hstop ']' hh).2 rfl
  simp [this]

lemma isPrefixOf_mem {p l : List Char} (h : p.isPrefixOf l = true) :
    ∀ c ∈ p, c ∈ l := by
  rw [ List.isPrefixOf_iff_prefix] at h
  exact fun c hc => h.subset hc

lemma openReq_not_prefixOf_bare (l : List Char) :
    openReq.isPrefixOf ('R' :: l) = false := by
  rw [openReq]
  simp [List.isPrefixOf]

lemma bareReq_prefixOf_append (l : List Char) :
    bareReq.isPrefixOf (bareReq ++ l) = true := by
  rw [ List.isPrefixOf_iff_prefix]
  exact ⟨l, rfl⟩

lemma tryMatchSingle_bare (ds rest : List Char) (hne : ds ≠ [])
    (h : ∀ c ∈ ds, c.isDigit)
    (hstop : ∀ c, rest.head? = some c → c.isDigit = false ∧ c ≠ ']') :
    tryMatchSingle (bareReq ++ (ds ++ rest)) = some (digitsVal ds, rest) := by
  have hshape : bareReq ++ (ds ++ rest) = 'R' :: ('E' :: 'Q' :: '-' :: (ds ++ rest)) := by
    simp [bareReq]
  rw [tryMatchSingle, hshape]
  rw [if_neg (by simp [openReq_not_prefixOf_bare])]
  rw [← hshape, if_pos (bareReq_prefixOf_append _)]
  have hdrop : (bareReq ++ (ds ++ rest)).drop 4 = ds ++ rest := by
    have h4 : (4 : ℕ) = bareReq.length := by decide
    rw [h4, List.drop_left]
  rw [hdrop]
  exact afterNum_spec ds rest hne h hstop

lemma tryMatchSingle_noR (l : List Char) (h : ∀ c ∈ l, c ≠ 'R') :
    tryMatchSingle l = none := by
  have h1 : ¬ (openReq.isPrefixOf l = true) := by
    intro hpre
    exact h 'R' (isPrefixOf_mem hpre 'R' (by simp [openReq])) rfl
  have h2 : ¬ (bareReq.isPrefixOf l = true) := by
    intro hpre
    exact h 'R' (isPrefixOf_mem hpre 'R' (by simp [bareReq])) rfl
  rw [tryMatchSingle, if_neg h1, if_neg h2]

lemma tryMatchRange_noR (l : List Char) (h : ∀ c ∈ l, c ≠ 'R') :
    tryMatchRange l = none := by
  have h1 : ¬ (openReq.isPrefixOf l = true) := by
    intro hpre
    exact h 'R' (isPrefixOf_mem hpre 'R' (by simp [openReq])) rfl
  have h2 : ¬ (bareReq.isPrefixOf l = true) := by
    intro hpre
    exact h 'R' (isPrefixOf_mem hpre 'R' (by simp [bareReq])) rfl
  rw [tryMatchRange, if_neg h1, if_neg h2]

lemma scanSinglesAux_nil (fuel : ℕ) : scanSinglesAux fuel [] = [] := by
  cases fuel <;> rfl

lemma scanRangesAux_nil (fuel : ℕ) : scanRangesAux fuel [] = [] := by
  cases fuel <;> rfl

lemma scanSinglesAux_noR (fuel : ℕ) (l : List Char) (h : ∀ c ∈ l, c ≠ 'R') :
    scanSinglesAux fuel l = [] := by
  induction fuel generalizing l with
  | zero => rfl
  | succ f ih =>
    cases l with
    | nil => rfl
    | cons c rest =>
      rw [scanSinglesAux, tryMatchSingle_noR _ h]
      exact ih rest (fun x hx => h x (List.mem_cons_of_mem _ hx))

lemma scanRangesAux_noR (fuel : ℕ) (l : List Char) (h : ∀ c ∈ l, c ≠ 'R') :
    scanRangesAux fuel l = [] := by
  induction fuel generalizing l with
  | zero => rfl
  | succ f ih =>
    cases l with
    | nil => rfl
    | cons c rest =>
      rw [scanRangesAux, tryMatchRange_noR _ h]
      exact ih rest (fun x hx => h x (List.mem_cons_of_mem _ hx))

lemma scanSinglesAux_req (fuel : ℕ) (ds rest : List Char) (hne : ds ≠ [])
    (h : ∀ c ∈ ds, c.isDigit)
    (hstop : ∀ c, rest.head? = some c → c.isDigit = false ∧ c ≠ ']')
    (hfuel : 1 + rest.length ≤ fuel) :
    scanSinglesAux fuel (bareReq ++ (ds ++ rest)) =
      digitsVal ds :: scanSinglesAux (fuel - 1) rest := by
  cases fuel with
  | zero => omega
  | succ f =>
    have hshape : bareReq ++ (ds ++ rest) = 'R' :: ('E' :: 'Q' :: '-' :: (ds ++ rest)) := by
      simp [bareReq]
    rw [hshape, scanSinglesAux, ← hshape, tryMatchSingle_bare ds rest hne h hstop]
    rfl

lemma scanRangesAux_reqStr (fuel : ℕ) (ds : List Char) (hne : ds ≠ [])
    (h : ∀ c ∈ ds, c.isDigit) :
    scanRangesAux fuel (bareReq ++ (ds ++ [])) = [] := by
  have hmt : matchRangeTail (ds ++ []) = none := by
    rw [matchRangeTail, matchDigits_spec ds [] hne h (by simp)]
  have htr : tryMatchRange (bareReq ++ (ds ++ [])) = none := by
    have hshape : bareReq ++ (ds ++ []) = 'R' :: ('E' :: 'Q' :: '-' :: (ds ++ [])) := by
      simp [bareReq]
    rw [tryMatchRange, hshape]
    rw [if_neg (by simp [openReq_not_prefixOf_bare])]
    rw [← hshape, if_pos (bareReq_prefixOf_append _)]
    have hdrop : (bareReq ++ (ds ++ [])).drop 4 = ds ++ [] := by
      have h4 : (4 : ℕ) = bareReq.length := by decide
      rw [h4, List.drop_left]
    rw [hdrop, hmt]
  cases fuel with
  | zero => rfl
  | succ f =>
    have hshape : bareReq ++ (ds ++ []) = 'R' :: ('E' :: 'Q' :: '-' :: (ds ++ [])) := by
      simp [bareReq]
    rw [hshape, scanRangesAux, ← hshape, htr]
    apply scanRangesAux_noR
    intro c hc
    simp at hc
    rcases hc with rfl | rfl | rfl | h1
    · decide
    · decide
    · decide
    · exact isDigit_ne_R (h c h1)

lemma matchRangeTail_spec (ds₁ ds₂ : List Char) (hne₁ : ds₁ ≠ []) (hne₂ : ds₂ ≠ [])
    (hdig₁ : ∀ c ∈ ds₁, c.isDigit) (hdig₂ : ∀ c ∈ ds₂, c.isDigit) :
    matchRangeTail (ds₁ ++ ('.' :: '.' :: ds₂)) =
      some (digitsVal ds₁, digitsVal ds₂, []) := by
  rw [matchRangeTail,
    matchDigits_spec ds₁ ('.' :: '.' :: ds₂) hne₁ hdig₁ (by intro c hc; injection hc with h1; rw [← h1]; decide)]
  have h2 : matchDigits ds₂ = some (digitsVal ds₂, []) := by
    have := matchDigits_spec ds₂ [] hne₂ hdig₂ (by simp)
    simpa using this
  show (match matchDigits ds₂ with
    | some (b, r) =>
      if r.head? = some ']' then some (digitsVal ds₁, b, r.tail)
      else some (digitsVal ds₁, b, r)
    | none => none) = _
  rw [h2]
  simp

lemma tryMatchRange_bare (ds₁ ds₂ : List Char) (hne₁ : ds₁ ≠ []) (hne₂ : ds₂ ≠ [])
    (hdig₁ : ∀ c ∈ ds₁, c.isDigit) (hdig₂ : ∀ c ∈ ds₂, c.isDigit) :
    tryMatchRange (bareReq ++ (ds₁ ++ ('.' :: '.' :: ds₂))) =
      some (digitsVal ds₁, digitsVal ds₂, []) := by
  have hshape : bareReq ++ (ds₁ ++ ('.' :: '.' :: ds₂)) =
      'R' :: ('E' :: 'Q' :: '-' :: (ds₁ ++ ('.' :: '.' :: ds₂))) := by
    simp [bareReq]
  rw [tryMatchRange, hshape]
  rw [if_neg (by simp [openReq_not_prefixOf_bare])]
  rw [← hshape, if_pos (bareReq_prefixOf_append _)]
  have hdrop : (bareReq ++ (ds₁ ++ ('.' :: '.' :: ds₂))).drop 4 = ds₁ ++ ('.' :: '.' :: ds₂) := by
    have h4 : (4 : ℕ) = bareReq.length := by decide
    rw [h4, List.drop_left]
  rw [hdrop]
  exact matchRangeTail_spec ds₁ ds₂ hne₁ hne₂ hdig₁ hdig₂

lemma scanSingles_reqStr (ds : List Char) (hne : ds ≠ [])
    (h : ∀ c ∈ ds, c.isDigit) :
    scanSingles (reqStr ds) = [digitsVal ds] := by
  rw [scanSingles, reqStr]
  have hshape : bareReq ++ ds = bareReq ++ (ds ++ []) := by simp
  rw [hshape]
  rw [scanSinglesAux_req _ ds [] hne h (by simp) (by simp [bareReq])]
  rw [scanSinglesAux_nil]

lemma scanSingles_reqRangeStr (ds₁ ds₂ : List Char) (hne₁ : ds₁ ≠ [])
    (hdig₁ : ∀ c ∈ ds₁, c.isDigit) (hdig₂ : ∀ c ∈ ds₂, c.isDigit) :
    scanSingles (reqRangeStr ds₁ ds₂) = [digitsVal ds₁] := by
  rw [scanSingles, reqRangeStr]
  rw [scanSinglesAux_req _ ds₁ ('.' :: '.' :: ds₂) hne₁ hdig₁
    (by intro c hc; injection hc with h1; rw [← h1]; exact ⟨by decide, by decide⟩)
    (by simp [bareReq]; omega)]
  rw [scanSinglesAux_noR]
  intro c hc
  have hsplit : c = '.' ∨ c ∈ ds₂ := by
    rcases List.mem_cons.mp hc with h1 | h1
    · exact Or.inl h1
    · rcases List.mem_cons.mp h1 with h2 | h2
      · exact Or.inl h2
      · exact Or.inr h2
  rcases hsplit with rfl | h1
  · decide
  · exact isDigit_ne_R (hdig₂ c h1)

lemma scanRanges_reqStr (ds : List Char) (hne : ds ≠ [])
    (h : ∀ c ∈ ds, c.isDigit) :
    scanRanges (reqStr ds) = [] := by
  rw [scanRanges, reqStr]
  have hshape : bareReq ++ ds = bareReq ++ (ds ++ []) := by simp
  rw [hshape]
  exact scanRangesAux_reqStr _ ds hne h

lemma scanRanges_reqRangeStr (ds₁ ds₂ : List Char) (hne₁ : ds₁ ≠ []) (hne₂ : ds₂ ≠ [])
    (hdig₁ : ∀ c ∈ ds₁, c.isDigit) (hdig₂ : ∀ c ∈ ds₂, c.isDigit) :
    scanRanges (reqRangeStr ds₁ ds₂) = [(digitsVal ds₁, digitsVal ds₂)] := by
  rw [scanRanges, reqRangeStr]
  cases hfl : (bareReq ++ (ds₁ ++ ('.' :: '.' :: ds₂))).length with
  | zero => simp [bareReq] at hfl
  | succ f =>
    have hshape : bareReq ++ (ds₁ ++ ('.' :: '.' :: ds₂)) =
        'R' :: ('E' :: 'Q' :: '-' :: (ds₁ ++ ('.' :: '.' :: ds₂))) := by
      simp [bareReq]
    rw [hshape, scanRangesAux, ← hshape, tryMatchRange_bare ds₁ ds₂ hne₁ hne₂ hdig₁ hdig₂]
    show (digitsVal ds₁, digitsVal ds₂) :: scanRangesAux f [] = _
    rw [scanRangesAux_nil]

lemma parse_ids_reqStr (ds : List Char) (hne : ds ≠ [])
    (h : ∀ c ∈ ds, c.isDigit) :
    parse_ids (reqStr ds) = {digitsVal ds} := by
  rw [parse_ids, scanSingles_reqStr ds hne h, scanRanges_reqStr ds hne h]
  simp

lemma parse_ids_reqRangeStr (ds₁ ds₂ : List Char) (hne₁ : ds₁ ≠ []) (hne₂ : ds₂ ≠ [])
    (hdig₁ : ∀ c ∈ ds₁, c.isDigit) (hdig₂ : ∀ c ∈ ds₂, c.isDigit) :
    parse_ids (reqRangeStr ds₁ ds₂) =
      insert (digitsVal ds₁) (expandRange (digitsVal ds₁) (digitsVal ds₂)).toFinset := by
  rw [parse_ids, scanSingles_reqRangeStr ds₁ ds₂ hne₁ hdig₁ hdig₂,
    scanRanges_reqRangeStr ds₁ ds₂ hne₁ hne₂ hdig₁ hdig₂]
  simp [Finset.insert_eq]

lemma expandRange_toFinset (a b : ℕ) (h : a ≤ b) :
    (expandRange a b).toFinset = Finset.Icc a b := by
  ext n
  rw [expandRange, List.mem_toFinset, List.mem_range', Finset.mem_Icc]
  constructor
  · rintro ⟨i, hi, rfl⟩
    omega
  · rintro ⟨h1, h2⟩
    exact ⟨n - a, by omega, by omega⟩

lemma expandRange_length (a b : ℕ) : (expandRange a b).length = b + 1 - a := by
  rw [expandRange, List.length_range']

lemma expandRange_nodup (a b : ℕ) : (expandRange a b).Nodup :=
  List.nodup_range' _ _

lemma expandRange_rev (a b : ℕ) (h : b < a) : expandRange a b = [] := by
  rw [expandRange]
  have h0 : b + 1 - a = 0 := by omega
  rw [h0]
  rfl

/-! ### Lemmas about the unjustified placeholder rule -/

lemma checkNoNAAux_fst_gt (lines : List String) :
    ∀ (start : ℕ) (p : ℕ × String), p ∈ checkNoNAAux start lines → start < p.1 := by
  induction lines with
  | nil => intro start p hp; simp [checkNoNAAux] at hp
  | cons l rest ih =>
    intro start p hp
    rw [checkNoNAAux] at hp
    by_cases hf : naFlagged l
    · rw [if_pos hf] at hp
      rcases List.mem_cons.mp hp with h1 | h1
      · rw [h1]; omega
      · have := ih (start + 1) p h1; omega
    · rw [if_neg hf] at hp
      have := ih (start + 1) p hp
      omega

lemma checkNoNAAux_filter (lines : List String) :
    ∀ (start i : ℕ) (line : String), lines[i]? = some line →
      (checkNoNAAux start lines).filter (fun p => p.1 == start + i + 1) =
        if naFlagged line then [(start + i + 1, line)] else [] := by
  induction lines with
  | nil => intro start i line h; simp at h
  | cons l rest ih =>
    intro start i line h
    have htail : ∀ q ∈ checkNoNAAux (start + 1) rest,
        ¬ (q.1 == start + 0 + 1) = true := by
      intro q hq
      have := checkNoNAAux_fst_gt rest (start + 1) q hq
      simp only [beq_iff_eq]
      omega
    cases i with
    | zero =>
      simp only [List.getElem?_cons_zero, Option.some_inj] at h
      subst h
      rw [checkNoNAAux]
      by_cases hf : naFlagged l
      · rw [if_pos hf, if_pos hf]
        rw [List.filter_cons]
        have hsame : (((start + 1, l) : ℕ × String).1 == start + 0 + 1) = true := by
          simp
        rw [if_pos hsame]
        rw [List.filter_eq_nil_iff.mpr htail]
      · rw [if_neg hf, if_neg hf]
        rw [List.filter_eq_nil_iff.mpr htail]
    | succ j =>
      simp only [List.getElem?_cons_succ] at h
      have hrec := ih (start + 1) j line h
      have hnum : start + (j + 1) + 1 = start + 1 + j + 1 := by omega
      rw [checkNoNAAux, hnum]
      by_cases hf : naFlagged l
      · rw [if_pos hf, List.filter_cons]
        have hdiff : (((start + 1, l) : ℕ × String).1 == start + 1 + j + 1) = false :=
          beq_false_of_ne (by omega)
        rw [if_neg (by simp [hdiff])]
        exact hrec
      · rw [if_neg hf]
        exact hrec

/-! ### Lemmas about the checklist coverage set -/

lemma checklistRefs_cons (r : String) (refs : List String) :
    checklistRefs (r :: refs) = refTokens r ∪ checklistRefs refs := rfl

lemma checklistRefs_append (refs : List String) (r : String) :
    checklistRefs (refs ++ [r]) = checklistRefs refs ∪ refTokens r := by
  induction refs with
  | nil => simp [checklistRefs]
  | cons a rest ih =>
    rw [List.cons_append, checklistRefs_cons, checklistRefs_cons, ih, Finset.union_assoc]

/-! ### Lemmas about the header rule round trip -/

lemma joinLines_cons₂ (l x : List Char) (xs : List (List Char)) :
    joinLines (l :: x :: xs) = l ++ '\n' :: joinLines (x :: xs) := rfl

lemma noNL_takeWhile (e : List Char) (h : ∀ c ∈ e, c ≠ '\n') :
    e.takeWhile (fun c => c != '\n') = e := by
  apply List.takeWhile_eq_self_iff.mpr
  intro x hx
  simpa using h x hx

lemma noNL_takeWhile_append (e t : List Char) (h : ∀ c ∈ e, c ≠ '\n') :
    (e ++ '\n' :: t).takeWhile (fun c => c != '\n') = e := by
  induction e with
  | nil => simp [List.takeWhile_cons]
  | cons c cs ih =>
    have hc : (c != '\n') = true := by simpa using h c (by simp)
    simp only [List.cons_append, List.takeWhile_cons, hc, if_true]
    rw [ih (fun x hx => h x (by simp [hx]))]

lemma expectedHeader_noNL (p : List Char) (hp : '\n' ∉ p) :
    ∀ c ∈ expectedHeader p, c ≠ '\n' := by
  intro c hc he
  subst he
  rw [expectedHeader] at hc
  rcases List.mem_append.mp hc with h1 | h1
  · rcases List.mem_append.mp h1 with h2 | h2
    · exact absurd h2 (by decide)
    · exact hp h2
  · exact absurd h1 (by decide)

lemma pyStrip_of_ends (a b : Char) (mid : List Char)
    (ha : isPySpace a = false) (hb : isPySpace b = false) :
    pyStrip (a :: (mid ++ [b])) = a :: (mid ++ [b]) := by
  rw [pyStrip]
  have h1 : (a :: (mid ++ [b])).dropWhile isPySpace = a :: (mid ++ [b]) := by
    simp [List.dropWhile_cons, ha]
  rw [h1]
  have h2 : (a :: (mid ++ [b])).reverse = b :: (mid.reverse ++ [a]) := by
    simp
  rw [h2]
  have h3 : (b :: (mid.reverse ++ [a])).dropWhile isPySpace = b :: (mid.reverse ++ [a]) := by
    simp [List.dropWhile_cons, hb]
  rw [h3, ← h2, List.reverse_reverse]

lemma pyStrip_expectedHeader (p : List Char) :
    pyStrip (expectedHeader p) = expectedHeader p := by
  have hshape : expectedHeader p =
      '<' :: (('!' :: '-' :: '-' :: ' ' :: p ++ [' ', '-', '-']) ++ ['>']) := by
    rw [expectedHeader]
    simp
  rw [hshape, pyStrip_of_ends '<' '>' _ (by decide) (by decide)]

lemma splitlinesAux_head (content : List Char) :
    ∀ (cur first : List Char) (rest : List (List Char)),
      splitlinesAux cur content = first :: rest →
        first = cur.reverse ++ content.takeWhile (fun c => !isLineBoundary c) := by
  induction content with
  | nil =>
    intro cur first rest h
    rw [splitlinesAux] at h
    by_cases hc : cur.isEmpty
    · rw [if_pos hc] at h
      exact absurd h (by simp)
    · rw [if_neg hc] at h
      injection h with h1 _
      simp [← h1]
  | cons c cs ih =>
    intro cur first rest h
    rw [splitlinesAux] at h
    by_cases hc : isLineBoundary c
    · rw [if_pos hc] at h
      injection h with h1 _
      simp [← h1, List.takeWhile_cons, hc]
    · rw [if_neg hc] at h
      have := ih (c :: cur) first rest h
      rw [this]
      have hcb : (!isLineBoundary c) = true := by simpa using hc
      simp [List.takeWhile_cons, hcb]

lemma takeWhile_noBoundary_eq (content : List Char)
    (hline : ∀ c ∈ content.takeWhile (fun c => c != '\n'), isLineBoundary c = false) :
    content.takeWhile (fun c => !isLineBoundary c) =
      content.takeWhile (fun c => c != '\n') := by
  induction content with
  | nil => rfl
  | cons c cs ih =>
    by_cases hc : c = '\n'
    · subst hc
      have hb : isLineBoundary '\n' = true := by decide
      simp [List.takeWhile_cons, hb]
    · have hcb : (c != '\n') = true := by simpa using hc
      have hmem : c ∈ (c :: cs).takeWhile (fun c => c != '\n') := by
        rw [List.takeWhile_cons, if_pos hcb]
        exact List.mem_cons_self _ _
      have hnb := hline c hmem
      have ihr := ih (fun x hx => hline x (by rw [List.takeWhile_cons, if_pos hcb]; exact List.mem_cons_of_mem _ hx))
      simp [List.takeWhile_cons, hcb, hnb, ihr]

/-! ### Claim theorems -/

/-- C1: the coverage check reports a violation exactly for the REQ
identifiers that are in the Declared Set and absent from the Coverage Set.
An identifier that appears only in the checklist (for example through a
range) is never flagged: over-coverage is permitted and under-coverage is
the only failure mode.  The first part characterises the violations of the
CI script, the second the missing list of validate_traceability, and the
third is Scenario A: REQ-1 declared, checklist references REQ-1..3, and the
run passes. -/
theorem req_coverage_violations_exact :
    (∀ (texts : List String) (cl : String) (n : ℕ),
        n ∈ mainViolations (checkReqMain texts (some cl)) ↔
          n ∈ definedReqs texts ∧ n ∉ parse_ids cl.toList) ∧
    (∀ (reqIter : List String) (checklist : Option (List (List (List String))))
        (s : String),
        s ∈ (validate_traceability reqIter checklist).2 ↔
          s ∈ reqIter ∧ s ∉ composeCrefs checklist) ∧
    checkReqMain ["## [REQ-1] The feature"] (some "refs: [REQ-1..3]") = .success 1 := by
  refine ⟨?_, ?_, by decide⟩
  · intro texts cl n
    rw [checkReqMain]
    by_cases h : definedReqs texts = ∅
    · rw [if_pos h]
      simp [mainViolations, h]
    · rw [if_neg h]
      by_cases h2 : reqMissingSet (definedReqs texts) (parse_ids cl.toList) = ∅
      · rw [if_pos h2]
        simp only [mainViolations, List.not_mem_nil, false_iff]
        rintro ⟨hd, hc⟩
        have hm : n ∈ reqMissingSet (definedReqs texts) (parse_ids cl.toList) :=
          Finset.mem_sdiff.mpr ⟨hd, hc⟩
        rw [h2] at hm
        exact absurd hm (Finset.not_mem_empty n)
      · rw [if_neg h2]
        simp only [mainViolations]
        rw [Finset.mem_sort]
        exact Finset.mem_sdiff
  · intro reqIter checklist s
    rw [validate_traceability]
    simp only [composeMissing, List.mem_filter, decide_eq_true_eq]

/-- C2 counterexample: the reversed range REQ-5..3 produces no parse error
anywhere: parse_ids silently returns only the ordinal 5 contributed by the
bare-identifier match, the range expansion itself is empty, and the
checklist range handling of compose_validate likewise turns the token into
the empty contribution. -/
theorem reversed_range_silent_ce :
    parse_ids ("REQ-5..3".toList) = {5} ∧
    expandRange 5 3 = [] ∧
    refTokens "REQ-5..3" = ∅ := by
  refine ⟨by decide, ?_, by decide⟩
  exact expandRange_rev 5 3 (by omega)

/-- C2 amended: for every range rendering with numeric but reversed bounds,
extraction yields a silent empty expansion and no error: parse_ids returns
exactly the singleton produced by the bare-identifier match of the start
bound, and the range contributes nothing.  No error value exists anywhere
in the extraction pipeline, whose result type is a plain set. -/
theorem reversed_range_empty_expansion (ds₁ ds₂ : List Char) (hne₁ : ds₁ ≠ [])
    (hne₂ : ds₂ ≠ []) (hdig₁ : ∀ c ∈ ds₁, c.isDigit) (hdig₂ : ∀ c ∈ ds₂, c.isDigit)
    (hrev : digitsVal ds₂ < digitsVal ds₁) :
    parse_ids (reqRangeStr ds₁ ds₂) = {digitsVal ds₁} ∧
    expandRange (digitsVal ds₁) (digitsVal ds₂) = [] := by
  have he := expandRange_rev _ _ hrev
  constructor
  · rw [parse_ids_reqRangeStr ds₁ ds₂ hne₁ hne₂ hdig₁ hdig₂, he]
    simp
  · exact he

/-- C2 witness: the amended statement at the concrete reversed range
REQ-5..3. -/
theorem reversed_range_empty_expansion_witness :
    (['5'] : List Char) ≠ [] ∧ (['3'] : List Char) ≠ [] ∧
    digitsVal ['3'] < digitsVal ['5'] ∧
    (parse_ids (reqRangeStr ['5'] ['3']) = {digitsVal ['5']} ∧
      expandRange (digitsVal ['5']) (digitsVal ['3']) = []) :=
  ⟨by decide, by decide, by decide,
    reversed_range_empty_expansion ['5'] ['3'] (by decide) (by decide)
      (by decide) (by decide) (by decide)⟩

/-- C3 counterexample: in compose_validate the padded and the unpadded
rendering of the same ordinal are distinct identifier values: the extractor
returns the matched strings themselves, and a declaration written padded is
not covered by a literal checklist reference written unpadded, so the run
reports a violation for it. -/
theorem padded_unpadded_distinct_in_compose :
    get_all_ids_from_text "REQ-01" = {"REQ-01"} ∧
    get_all_ids_from_text "REQ-1" = {"REQ-1"} ∧
    ({"REQ-01"} : Finset String) ≠ {"REQ-1"} ∧
    validate_traceability ["REQ-01"] (some [[["REQ-1"]]]) = (false, ["REQ-01"]) := by
  decide

/-- C3 amended: in the REQ coverage CI script the identifier value is the
integer ordinal, so the zero-padded and the unpadded rendering of one
ordinal parse to the identical element of the extracted set; in
compose_validate the two renderings are distinct string values and only
range expansion inserts both forms. -/
theorem padded_unpadded_same_ordinal_parse (ds : List Char) (hne : ds ≠ [])
    (hdig : ∀ c ∈ ds, c.isDigit) :
    parse_ids (reqStr ('0' :: ds)) = parse_ids (reqStr ds) := by
  have h0 : ∀ c ∈ ('0' :: ds), c.isDigit := by
    intro c hc
    rcases List.mem_cons.mp hc with rfl | h1
    · decide
    · exact hdig c h1
  rw [parse_ids_reqStr ds hne hdig, parse_ids_reqStr ('0' :: ds) (by simp) h0,
    digitsVal_pad]

/-- C3 witness: the padded rendering REQ-01 and the unpadded rendering
REQ-1 extract to the same set. -/
theorem padded_unpadded_same_ordinal_parse_witness :
    (['1'] : List Char) ≠ [] ∧
    parse_ids (reqStr ('0' :: ['1'])) = parse_ids (reqStr ['1']) :=
  ⟨by decide, padded_unpadded_same_ordinal_parse ['1'] (by decide) (by decide)⟩

/-- C4: the coverage check is monotonic in the checklist.  Growing the
covered set can only shrink the missing set of the CI script, and appending
one more reference token to the checklist can only shrink the missing list
of validate_traceability: no new violation ever appears. -/
theorem coverage_monotone :
    (∀ (d c₁ c₂ : Finset ℕ), c₁ ⊆ c₂ → reqMissingSet d c₂ ⊆ reqMissingSet d c₁) ∧
    (∀ (reqIter refs : List String) (r : String),
        composeMissing reqIter (checklistRefs (refs ++ [r])) ⊆
          composeMissing reqIter (checklistRefs refs)) := by
  constructor
  · intro d c₁ c₂ hsub n hn
    rw [reqMissingSet, Finset.mem_sdiff] at hn ⊢
    exact ⟨hn.1, fun hc => hn.2 (hsub hc)⟩
  · intro reqIter refs r s hs
    rw [composeMissing, List.mem_filter] at hs ⊢
    refine ⟨hs.1, ?_⟩
    have h2 := of_decide_eq_true hs.2
    rw [checklistRefs_append] at h2
    exact decide_eq_true (fun hc => h2 (Finset.mem_union_left _ hc))

/-- C4 witness: the monotonicity instance at concrete sets: covering the
ordinal 2 as well can only shrink the missing set. -/
theorem coverage_monotone_witness :
    reqMissingSet {1, 2} {1, 2} ⊆ reqMissingSet {1, 2} {1} :=
  coverage_monotone.1 {1, 2} {1} {1, 2} (by decide)

/-- C5 counterexample: an absent checklist is not always fatal.  In
validate_traceability the absent checklist file is skipped silently and the
function returns the full violation list computed against the empty
coverage set instead of raising; and in the CI script an absent checklist
with an empty declared set exits with status zero. -/
theorem checklist_absent_not_always_fatal :
    validate_traceability ["REQ-1"] none = (false, ["REQ-1"]) ∧
    checkReqMain ["intro text"] none = .noReqs ∧
    reqExitCode (checkReqMain ["intro text"] none) = 0 := by
  decide

/-- C5 amended: only the REQ coverage CI script is fatal on an absent
checklist, and only once the declared set is nonempty: it then exits with
status one immediately and reports no partial violations. -/
theorem checklist_absent_fatal_when_reqs (texts : List String)
    (h : definedReqs texts ≠ ∅) :
    checkReqMain texts none = .fatalNoChecklist ∧
    reqExitCode (checkReqMain texts none) = 1 ∧
    mainViolations (checkReqMain texts none) = [] := by
  have hm : checkReqMain texts none = .fatalNoChecklist := by
    rw [checkReqMain, if_neg h]
  exact ⟨hm, by rw [hm]; rfl, by rw [hm]; rfl⟩

/-- C5 witness: the fatal outcome at a concrete corpus declaring REQ-7 with
the checklist absent. -/
theorem checklist_absent_fatal_when_reqs_witness :
    definedReqs ["see REQ-7"] ≠ ∅ ∧
    (checkReqMain ["see REQ-7"] none = .fatalNoChecklist ∧
      reqExitCode (checkReqMain ["see REQ-7"] none) = 1 ∧
      mainViolations (checkReqMain ["see REQ-7"] none) = []) :=
  ⟨by decide, checklist_absent_fatal_when_reqs ["see REQ-7"] (by decide)⟩

/-- C6: the unjustified placeholder rule flags a line exactly once, at its
own one-based line number, precisely when the line contains N/A, is not
exempted (no self-referential TEST-02 marker and no inline-code form of
N/A on the line), and carries no bracketed DEC-number token; in every other
case the line contributes no violation. -/
theorem na_rule_exact_line (lines : List String) (i : ℕ) (line : String)
    (h : lines[i]? = some line) :
    (checkNoNA lines).filter (fun p => p.1 == i + 1) =
      if naFlagged line then [(i + 1, line)] else [] := by
  have hfil := checkNoNAAux_filter lines 0 i line h
  simpa using hfil

/-- C6 witness: a line containing a bare N/A with no justification is
flagged exactly once at line one. -/
theorem na_rule_exact_line_witness :
    (checkNoNA ["Latency: N/A for now"]).filter (fun p => p.1 == 0 + 1) =
      [(0 + 1, "Latency: N/A for now")] := by
  rw [na_rule_exact_line ["Latency: N/A for now"] 0 "Latency: N/A for now" rfl]
  decide

lemma fixContent_eq_nil (p content : List Char) (h : splitlines content = []) :
    fixContent p content = expectedHeader p ++ ['\n'] := by
  rw [fixContent, h]

lemma fixContent_eq_cons (p content first : List Char) (rest : List (List Char))
    (h : splitlines content = first :: rest) :
    fixContent p content =
      (if pyStrip first = expectedHeader p then content
       else if startsComment (pyStrip first) && endsComment (pyStrip first) then
         joinLines (expectedHeader p :: rest) ++ ['\n']
       else
         joinLines
             (if (pyStrip first).isEmpty then expectedHeader p :: first :: rest
              else expectedHeader p :: [] :: first :: rest) ++ ['\n']) := by
  rw [fixContent, h]

/-- C7 counterexample: the header round trip fails on a document whose
first physical line carries the correct header followed by a vertical tab
and further text before the first newline.  The fixer splits lines with
str.splitlines, whose first chunk ends at the vertical tab and strips to
the expected header, so the file is left untouched; the checker reads the
first line with readline, which stops only at a newline, so it sees the
trailing text after the vertical tab and rejects the unchanged file. -/
theorem header_roundtrip_boundary_ce :
    fixContent ("_blueprint/a.md".toList)
        ("<!-- _blueprint/a.md -->\x0bjunk\n".toList) =
      ("<!-- _blueprint/a.md -->\x0bjunk\n".toList) ∧
    checkHeader ("_blueprint/a.md".toList)
      (fixContent ("_blueprint/a.md".toList)
        ("<!-- _blueprint/a.md -->\x0bjunk\n".toList)) = false := by
  decide

/-- C7 amended: header round trip.  Rewriting a document with the header
fixer makes the header checker accept it, provided the text before the
first newline of the document contains no other Python line boundary
character (carriage return, vertical tab, form feed, file, group and
record separators, next line, line and paragraph separators) and the path
itself contains no newline.  The stripped first line of the rewritten file
then equals the canonical header comment for the corpus-relative path; this
covers the empty document and documents with a wrong, missing or already
correct header. -/
theorem header_fix_roundtrip (p content : List Char) (hp : '\n' ∉ p)
    (hline : ∀ c ∈ content.takeWhile (fun c => c != '\n'), isLineBoundary c = false) :
    checkHeader p (fixContent p content) = true := by
  have hnl : ∀ c ∈ expectedHeader p, c ≠ '\n' := expectedHeader_noNL p hp
  cases hsplit : splitlines content with
  | nil =>
    rw [fixContent_eq_nil p content hsplit, checkHeader]
    have ht : (expectedHeader p ++ ['\n']).takeWhile (fun c => c != '\n') =
        expectedHeader p := noNL_takeWhile_append _ [] hnl
    rw [ht, pyStrip_expectedHeader]
    simp
  | cons first rest =>
    rw [fixContent_eq_cons p content first rest hsplit]
    have hfirst := splitlinesAux_head content [] first rest hsplit
    simp only [List.reverse_nil, List.nil_append] at hfirst
    rw [takeWhile_noBoundary_eq content hline] at hfirst
    by_cases h1 : pyStrip first = expectedHeader p
    · rw [if_pos h1, checkHeader, ← hfirst, h1]
      simp
    · rw [if_neg h1]
      have hjoin : ∀ tail : List (List Char),
          (joinLines (expectedHeader p :: tail) ++ ['\n']).takeWhile
              (fun c => c != '\n') = expectedHeader p := by
        intro tail
        cases tail with
        | nil => exact noNL_takeWhile_append _ [] hnl
        | cons x xs =>
          rw [joinLines_cons₂, List.append_assoc]
          exact noNL_takeWhile_append _ _ hnl
      by_cases h2 : startsComment (pyStrip first) && endsComment (pyStrip first)
      · rw [if_pos h2, checkHeader, hjoin rest, pyStrip_expectedHeader]
        simp
      · rw [if_neg h2, checkHeader]
        by_cases h3 : (pyStrip first).isEmpty
        · rw [if_pos h3, hjoin (first :: rest), pyStrip_expectedHeader]
          simp
        · rw [if_neg h3, hjoin ([] :: first :: rest), pyStrip_expectedHeader]
          simp

/-- C7 witness: the round trip at a concrete path and a concrete document
whose first line is wrong and free of non-newline boundary characters. -/
theorem header_fix_roundtrip_witness :
    ('\n' ∉ ("_blueprint/project/ch0.md".toList)) ∧
    (∀ c ∈ ("# Chapter 0\nBody text\n".toList).takeWhile (fun c => c != '\n'),
        isLineBoundary c = false) ∧
    checkHeader ("_blueprint/project/ch0.md".toList)
      (fixContent ("_blueprint/project/ch0.md".toList)
        ("# Chapter 0\nBody text\n".toList)) = true :=
  ⟨by decide, by decide, header_fix_roundtrip _ _ (by decide) (by decide)⟩

/-- C8 counterexample: the printed violation output of validate_traceability
is not independent of the hash-based set iteration order: two runs over the
identical corpus (the same harvested set, iterated in two different orders)
print different bytes, so the output is not byte-identical across runs. -/
theorem compose_output_order_dependent :
    ["REQ-1", "REQ-2"].Perm ["REQ-2", "REQ-1"] ∧
    composePrintLines (validate_traceability ["REQ-1", "REQ-2"] none).2 ≠
      composePrintLines (validate_traceability ["REQ-2", "REQ-1"] none).2 := by
  decide

/-- C8 amended: the REQ coverage CI script is deterministic: it sorts the
missing set before printing, so its printed violation list is the same for
every iteration order of the missing set, and two runs over an identical
corpus print identical bytes for this checker. -/
theorem checkreq_output_order_canonical (o₁ o₂ : List ℕ) (h : o₁.Perm o₂) :
    checkReqPrintList o₁ = checkReqPrintList o₂ := by
  rw [checkReqPrintList, checkReqPrintList]
  congr 1
  apply List.eq_of_perm_of_sorted (r := (· ≤ ·))
  · exact ((o₁.perm_insertionSort _).trans h).trans (o₂.perm_insertionSort _).symm
  · exact List.sorted_insertionSort _ o₁
  · exact List.sorted_insertionSort _ o₂

/-- C8 witness: the canonical output at two concrete iteration orders of
the same missing set. -/
theorem checkreq_output_order_canonical_witness :
    checkReqPrintList [3, 1] = checkReqPrintList [1, 3] :=
  checkreq_output_order_canonical [3, 1] [1, 3] (by decide)

/-- C9: for every range rendering with numeric bounds A at most B, the
extraction of the range text yields exactly the closed interval of ordinals
from A to B: the expansion list has B minus A plus one elements, no
duplicates, and the extracted set is the interval itself. -/
theorem range_expansion_covers_interval (ds₁ ds₂ : List Char) (hne₁ : ds₁ ≠ [])
    (hne₂ : ds₂ ≠ []) (hdig₁ : ∀ c ∈ ds₁, c.isDigit) (hdig₂ : ∀ c ∈ ds₂, c.isDigit)
    (hle : digitsVal ds₁ ≤ digitsVal ds₂) :
    parse_ids (reqRangeStr ds₁ ds₂) = Finset.Icc (digitsVal ds₁) (digitsVal ds₂) ∧
    (expandRange (digitsVal ds₁) (digitsVal ds₂)).length =
      digitsVal ds₂ - digitsVal ds₁ + 1 ∧
    (expandRange (digitsVal ds₁) (digitsVal ds₂)).Nodup := by
  refine ⟨?_, ?_, expandRange_nodup _ _⟩
  · rw [parse_ids_reqRangeStr ds₁ ds₂ hne₁ hne₂ hdig₁ hdig₂,
      expandRange_toFinset _ _ hle]
    rw [Finset.insert_eq_self.mpr (Finset.mem_Icc.mpr ⟨le_refl _, hle⟩)]
  · rw [expandRange_length]
    omega

/-- C9 witness: the interval property at the concrete range REQ-3..5. -/
theorem range_expansion_covers_interval_witness :
    digitsVal ['3'] ≤ digitsVal ['5'] ∧
    (parse_ids (reqRangeStr ['3'] ['5']) =
        Finset.Icc (digitsVal ['3']) (digitsVal ['5']) ∧
      (expandRange (digitsVal ['3']) (digitsVal ['5'])).length =
        digitsVal ['5'] - digitsVal ['3'] + 1 ∧
      (expandRange (digitsVal ['3']) (digitsVal ['5'])).Nodup) :=
  ⟨by decide, range_expansion_covers_interval ['3'] ['5'] (by decide) (by decide)
    (by decide) (by decide) (by decide)⟩

/-- C10: when the declaration scan finds no REQ ordinal in any blueprint
markdown text, the CI script stops successfully with exit status zero
before ever looking at the checklist: an absent checklist file is not
fatal in that case and no violation is reported. -/
theorem no_reqs_short_circuit (texts : List String) (cl : Option String)
    (h : definedReqs texts = ∅) :
    checkReqMain texts cl = .noReqs ∧
    reqExitCode (checkReqMain texts cl) = 0 ∧
    mainViolations (checkReqMain texts cl) = [] := by
  have hm : checkReqMain texts cl = .noReqs := by
    rw [checkReqMain.eq_def, if_pos h]
  exact ⟨hm, by rw [hm]; rfl, by rw [hm]; rfl⟩

/-- C10 witness: a corpus with no REQ mention exits cleanly although the
checklist is absent. -/
theorem no_reqs_short_circuit_witness :
    definedReqs ["plain prose only"] = ∅ ∧
    (checkReqMain ["plain prose only"] none = .noReqs ∧
      reqExitCode (checkReqMain ["plain prose only"] none) = 0 ∧
      mainViolations (checkReqMain ["plain prose only"] none) = []) :=
  ⟨by decide, no_reqs_short_circuit ["plain prose only"] none (by decide)⟩
